import Mathlib

/-!
Verification of the ReZZan runtime allocator (src/rezzan_runtime.c).

The development shallowly embeds the parts of the runtime that the
checked properties are about, in the default configuration
(REZZAN_NONCE_SIZE = 61):

* the token primitives written in inline assembly
  (rezzan_set_token61, rezzan_test_token61),
* the poison-window check check_poisoned,
* the memory layout produced by rezzan_malloc and the token walk of
  rezzan_free, over a word-indexed memory,
* memcpy and memmove over a byte-indexed memory,
* the quarantine (size-classed free lists over a node pool) and the
  allocator dispatch of rezzan_malloc / pool_malloc.

Machine words are modelled as natural numbers reduced modulo 2 ^ 64 at
the operations where the hardware wraps.  A Bool result or an Option
result equal to none models the fatal ud2 trap (SIGILL) where the
comment on the definition says so.
-/

namespace Rezzan

/-- Word-indexed memory: index i holds the 64-bit word stored at byte
address 8 * i. -/
def Mem : Type := Nat → Nat

/-- Register-width truncated negation, modelling the negq instruction. -/
def neg64 (x : Nat) : Nat := (2 ^ 64 - x % 2 ^ 64) % 2 ^ 64

/-- Clearing the low three bits of a word, modelling andq with the
immediate -8. -/
def clear3 (x : Nat) : Nat := x - x % 8

/-- rezzan_set_token61: the stored word is the negated nonce with its low
three bits cleared, xored with the boundary.  The boundary is below 8 and
the cleared bits are zero, so the xor coincides with addition. -/
def set_token61 (nonce boundary : Nat) : Nat := clear3 (neg64 nonce) + boundary

/-- rezzan_test_token61: a word is poisoned when its value with the low
three bits cleared, plus the nonce, vanishes modulo 2 ^ 64.  The stored
nonce has its low three bits cleared at initialization. -/
def test_token61 (nonce w : Nat) : Bool := (clear3 w + nonce) % 2 ^ 64 == 0

/-- A nonce as produced by rezzan_init in 61-bit mode: a nonzero register
value whose low three bits were cleared. -/
def validNonce (nonce : Nat) : Prop :=
  nonce % 8 = 0 ∧ 0 < nonce ∧ nonce < 2 ^ 64

theorem test_token61_set (nonce b : Nat) (hv : validNonce nonce) (hb : b < 8) :
    test_token61 nonce (set_token61 nonce b) = true := by
  obtain ⟨h8, h0, hW⟩ := hv
  simp only [test_token61, set_token61, clear3, neg64, beq_iff_eq]
  omega

theorem set_token61_mod8 (nonce b : Nat) (hv : validNonce nonce) (hb : b < 8) :
    set_token61 nonce b % 8 = b := by
  obtain ⟨h8, h0, hW⟩ := hv
  simp only [set_token61, clear3, neg64]
  omega

theorem test_token61_zero (nonce : Nat) (hv : validNonce nonce) :
    test_token61 nonce 0 = false := by
  obtain ⟨h8, h0, hW⟩ := hv
  simp only [test_token61, clear3, neg64, beq_eq_false_iff_ne, ne_eq]
  omega

/-- check_poisoned from the source, in the default 61-bit nonce mode.
A result of true models the ud2 abort (SIGILL); false models a normal
return.  The int truncation of check_len in the C code is immaterial for
the lengths considered here (below 2 ^ 31). -/
def check_poisoned (nonce : Nat) (m : Mem) (ptr n : Nat) : Bool :=
  let front_delta := ptr % 8
  let check_len0 := n + front_delta
  let iptr := ptr - front_delta
  let end_delta := check_len0 % 8
  let check_len := (if end_delta ≠ 0 then check_len0 + 8 else check_len0) / 8
  let base := iptr / 8
  ((List.range check_len).any fun i => test_token61 nonce (m (base + i))) ||
  (decide (end_delta ≠ 0) &&
   decide ((8 * (base + check_len)) % 4096 ≠ 0) &&
   test_token61 nonce (m (base + check_len)) &&
   decide (m (base + check_len) % 8 ≠ 0) &&
   decide (m (base + check_len) % 8 < end_delta))

/-- Restatement of check_poisoned without the intermediate lets: the word
loop always runs over (ptr % 8 + n + 7) / 8 words starting at ptr / 8. -/
theorem check_poisoned_char (nonce : Nat) (m : Mem) (ptr n : Nat) :
    check_poisoned nonce m ptr n =
      (((List.range ((ptr % 8 + n + 7) / 8)).any fun i =>
          test_token61 nonce (m (ptr / 8 + i))) ||
       (decide ((n + ptr % 8) % 8 ≠ 0) &&
        decide ((8 * (ptr / 8 + (ptr % 8 + n + 7) / 8)) % 4096 ≠ 0) &&
        test_token61 nonce (m (ptr / 8 + (ptr % 8 + n + 7) / 8)) &&
        decide (m (ptr / 8 + (ptr % 8 + n + 7) / 8) % 8 ≠ 0) &&
        decide (m (ptr / 8 + (ptr % 8 + n + 7) / 8) % 8 < (n + ptr % 8) % 8))) := by
  have h1 : (ptr - ptr % 8) / 8 = ptr / 8 := by omega
  have h2 : (if (n + ptr % 8) % 8 ≠ 0 then n + ptr % 8 + 8 else n + ptr % 8) / 8
      = (ptr % 8 + n + 7) / 8 := by split <;> omega
  simp only [check_poisoned, h1, h2]

/-- The unit count computed by rezzan_malloc: size plus one token worth of
space, rounded up to whole 16-byte units. -/
def unitCount (size : Nat) : Nat :=
  (if (size + 8) % 16 ≠ 0 then size + 8 - (size + 8) % 16 + 16 else size + 8) / 16

theorem unitCount_eq_ceil (size : Nat) : unitCount size = (size + 8 + 15) / 16 := by
  simp only [unitCount]
  split <;> omega

/-- The pool memory after a fresh allocation of size bytes returned at
byte address 8 * pw (pw at least 2): the unit in front of the allocation
is poisoned (for the first allocation that is the underflow sentinel that
rezzan_init poisons with boundary 0), the words covering the user bytes
hold the fresh or user-written values u, and every trailing redzone token
was poisoned by rezzan_malloc with boundary size % 8. -/
def mallocMem (nonce pw size : Nat) (u : Nat → Nat) : Mem := fun i =>
  if pw - 2 ≤ i ∧ i < pw then set_token61 nonce 0
  else if pw ≤ i ∧ i < pw + (size + 7) / 8 then u (i - pw)
  else if pw + (size + 7) / 8 ≤ i ∧ i < pw + 2 * unitCount size then
    set_token61 nonce (size % 8)
  else 0

theorem mallocMem_sentinel (nonce pw size : Nat) (u : Nat → Nat) (i : Nat)
    (h1 : pw - 2 ≤ i) (h2 : i < pw) :
    mallocMem nonce pw size u i = set_token61 nonce 0 := by
  unfold mallocMem
  rw [if_pos ⟨h1, h2⟩]

theorem mallocMem_user (nonce pw size : Nat) (u : Nat → Nat) (i : Nat)
    (h1 : pw ≤ i) (h2 : i < pw + (size + 7) / 8) :
    mallocMem nonce pw size u i = u (i - pw) := by
  unfold mallocMem
  rw [if_neg (by omega), if_pos ⟨h1, h2⟩]

theorem mallocMem_red (nonce pw size : Nat) (u : Nat → Nat) (i : Nat)
    (h1 : pw + (size + 7) / 8 ≤ i) (h2 : i < pw + 2 * unitCount size) :
    mallocMem nonce pw size u i = set_token61 nonce (size % 8) := by
  unfold mallocMem
  rw [if_neg (by omega), if_neg (by omega), if_pos ⟨h1, h2⟩]

/-- Any access that stays inside the user bytes of an allocation passes
the poison-window check. -/
theorem check_inside_ok (nonce pw size : Nat) (u : Nat → Nat)
    (hv : validNonce nonce) (hpw : 2 ≤ pw)
    (hu : ∀ i, i < (size + 7) / 8 → test_token61 nonce (u i) = false)
    (a n : Nat) (ha : 8 * pw ≤ a) (han : a + n ≤ 8 * pw + size) (hn : 1 ≤ n) :
    check_poisoned nonce (mallocMem nonce pw size u) a n = false := by
  have hu16 : unitCount size = (size + 8 + 15) / 16 := unitCount_eq_ceil size
  rw [check_poisoned_char]
  have hA : ((List.range ((a % 8 + n + 7) / 8)).any fun i =>
      test_token61 nonce (mallocMem nonce pw size u (a / 8 + i))) = false := by
    rw [List.any_eq_false]
    intro i hi
    rw [List.mem_range] at hi
    rw [mallocMem_user nonce pw size u _ (by omega) (by omega)]
    simp [hu _ (show a / 8 + i - pw < (size + 7) / 8 by omega)]
  rw [hA]
  simp only [Bool.false_or]
  by_cases he : (n + a % 8) % 8 = 0
  · simp [he]
  · by_cases ht : a / 8 + (a % 8 + n + 7) / 8 < pw + (size + 7) / 8
    · rw [mallocMem_user nonce pw size u _ (by omega) ht]
      have h3 := hu (a / 8 + (a % 8 + n + 7) / 8 - pw) (by omega)
      simp [h3]
    · have hteq : a / 8 + (a % 8 + n + 7) / 8 = pw + (size + 7) / 8 := by omega
      rw [hteq, mallocMem_red nonce pw size u _ (by omega) (by omega)]
      rw [set_token61_mod8 nonce _ hv (by omega)]
      by_cases hb : size % 8 = 0
      · simp [hb]
      · simp
        intro _ _ _ _
        omega

/-- When the requested size does not end on a word boundary and its low
three bits are at most 6, the one-byte access just past the last user
byte is caught by the boundary field of the first redzone token. -/
theorem check_end_aborts (nonce pw size : Nat) (u : Nat → Nat)
    (hv : validNonce nonce) (hpw : 2 ≤ pw)
    (hu : ∀ i, i < (size + 7) / 8 → test_token61 nonce (u i) = false)
    (hb1 : 1 ≤ size % 8) (hb6 : size % 8 ≤ 6)
    (hpage : (8 * (pw + size / 8 + 1)) % 4096 ≠ 0) :
    check_poisoned nonce (mallocMem nonce pw size u) (8 * pw + size) 1 = true := by
  have hu16 : unitCount size = (size + 8 + 15) / 16 := unitCount_eq_ceil size
  rw [check_poisoned_char]
  have e1 : (8 * pw + size) % 8 = size % 8 := by omega
  have e2 : (8 * pw + size) / 8 = pw + size / 8 := by omega
  rw [e1, e2]
  have e3 : (size % 8 + 1 + 7) / 8 = 1 := by omega
  rw [e3]
  rw [mallocMem_red nonce pw size u (pw + size / 8 + 1) (by omega) (by omega)]
  rw [set_token61_mod8 nonce _ hv (by omega), test_token61_set nonce _ hv (by omega)]
  simp [hpage]
  exact Or.inr ⟨by omega, by omega⟩

/-- After malloc(5), the one-byte access at offset 8 touches the first
redzone token and is caught by the word loop of the check. -/
theorem check_after5_word_aborts (nonce pw : Nat) (u : Nat → Nat)
    (hv : validNonce nonce) (hpw : 2 ≤ pw) :
    check_poisoned nonce (mallocMem nonce pw 5 u) (8 * pw + 8) 1 = true := by
  have h5 : unitCount 5 = 1 := by decide
  rw [check_poisoned_char]
  have e1 : (8 * pw + 8) % 8 = 0 := by omega
  have e2 : (8 * pw + 8) / 8 = pw + 1 := by omega
  rw [e1, e2]
  have e3 : (0 + 1 + 7) / 8 = 1 := by norm_num
  rw [e3]
  have hl : ((List.range 1).any fun i =>
      test_token61 nonce (mallocMem nonce pw 5 u (pw + 1 + i))) = true := by
    rw [List.any_eq_true]
    refine ⟨0, by simp, ?_⟩
    rw [Nat.add_zero, mallocMem_red nonce pw 5 u (pw + 1) (by omega) (by omega)]
    exact test_token61_set nonce _ hv (by omega)
  rw [hl, Bool.true_or]

/-- After malloc(5), the one-byte access at offset 7 stays inside the
word that holds the last user bytes and passes the check: the byte
overflow into the slack bytes 5, 6 and 7 is not detected. -/
theorem check_after5_byte7_ok (nonce pw : Nat) (u : Nat → Nat)
    (hv : validNonce nonce) (hpw : 2 ≤ pw)
    (hu : ∀ i, i < (5 + 7) / 8 → test_token61 nonce (u i) = false) :
    check_poisoned nonce (mallocMem nonce pw 5 u) (8 * pw + 7) 1 = false := by
  rw [check_poisoned_char]
  have e1 : (8 * pw + 7) % 8 = 7 := by omega
  have e2 : (8 * pw + 7) / 8 = pw := by omega
  rw [e1, e2]
  have e3 : (7 + 1 + 7) / 8 = 1 := by norm_num
  rw [e3]
  have hl : ((List.range 1).any fun i =>
      test_token61 nonce (mallocMem nonce pw 5 u (pw + i))) = false := by
    rw [List.any_eq_false]
    intro i hi
    rw [List.mem_range] at hi
    have hi0 : i = 0 := by omega
    subst hi0
    rw [Nat.add_zero, mallocMem_user nonce pw 5 u pw (by omega) (by omega)]
    simp [Nat.sub_self, hu 0 (by omega)]
  rw [hl, Bool.false_or]
  simp

/-- C1, amended.  In 61-bit mode, a fresh allocation of size bytes at a
16-byte aligned pointer p = 8 * pw produces no false positive inside
[p, p + size); the one-byte check at p + size aborts whenever
size mod 8 lies in 1..6 and the first redzone token is not page-aligned;
for size mod 8 = 7 the access ends exactly on the word boundary and is
missed.  Concretely after malloc(5) the one-byte checks at p + 5 and
p + 8 abort while p + 4 and p + 7 pass. -/
theorem c1_byte_precision (nonce pw size : Nat) (u : Nat → Nat)
    (hv : validNonce nonce) (hpw : 2 ≤ pw)
    (hu : ∀ i, i < (size + 7) / 8 → test_token61 nonce (u i) = false) :
    (∀ a n, 8 * pw ≤ a → a + n ≤ 8 * pw + size → 1 ≤ n →
        check_poisoned nonce (mallocMem nonce pw size u) a n = false)
    ∧ (1 ≤ size % 8 → size % 8 ≤ 6 → (8 * (pw + size / 8 + 1)) % 4096 ≠ 0 →
        check_poisoned nonce (mallocMem nonce pw size u) (8 * pw + size) 1 = true)
    ∧ (size = 5 →
        check_poisoned nonce (mallocMem nonce pw size u) (8 * pw + 8) 1 = true
        ∧ check_poisoned nonce (mallocMem nonce pw size u) (8 * pw + 7) 1 = false) := by
  refine ⟨fun a n ha han hn => check_inside_ok nonce pw size u hv hpw hu a n ha han hn,
          fun h1 h6 hp => check_end_aborts nonce pw size u hv hpw hu h1 h6 hp,
          fun h5 => ?_⟩
  subst h5
  exact ⟨check_after5_word_aborts nonce pw u hv hpw,
         check_after5_byte7_ok nonce pw u hv hpw hu⟩

/-- C1, counterexample to the claim as stated: after malloc(5) in 61-bit
mode with nonce 8, the one-byte poison-window check at p + 7 returns
normally instead of aborting. -/
theorem c1_counterexample :
    check_poisoned 8 (mallocMem 8 2 5 (fun _ => 0)) (8 * 2 + 7) 1 = false := by
  decide

/-- C1 witness: the amended theorem applied at nonce 8, pw 2, size 5. -/
theorem c1_witness :
    check_poisoned 8 (mallocMem 8 2 5 (fun _ => 0)) (8 * 2 + 4) 1 = false
    ∧ check_poisoned 8 (mallocMem 8 2 5 (fun _ => 0)) (8 * 2 + 5) 1 = true
    ∧ check_poisoned 8 (mallocMem 8 2 5 (fun _ => 0)) (8 * 2 + 8) 1 = true := by
  have h := c1_byte_precision 8 2 5 (fun _ => 0)
    (by simp only [validNonce]; decide) (by decide) (by decide)
  exact ⟨h.1 (8 * 2 + 4) 1 (by decide) (by decide) (by decide),
         h.2.1 (by decide) (by decide) (by decide),
         (h.2.2 rfl).1⟩

/-- The token walk of rezzan_free: starting at word pw + i, poison each
word that does not test as poisoned (with the boundary argument 0, as in
poison(ptr64 + i, 0)) and stop at the first word that does, returning the
updated memory and the loop counter.  The C loop has no bound; the fuel
argument only serves termination and is chosen large enough at use
sites. -/
def free_scan (nonce pw : Nat) : Nat → Nat → Mem → Option (Mem × Nat)
  | 0, _, _ => none
  | fuel + 1, i, m =>
    if test_token61 nonce (m (pw + i)) then some (m, i)
    else free_scan nonce pw fuel (i + 1)
      (fun w => if w = pw + i then set_token61 nonce 0 else m w)

/-- rezzan_free on an owned, 16-byte aligned pointer at byte address
8 * pw, in 61-bit mode.  A none result models the fatal bad-free or
double-free paths (ud2); the alignment and pool-range tests are
satisfied by construction here.  On success the result carries the new
memory and the size128 value that is passed to quarantine_insert. -/
def rezzan_free (nonce pw : Nat) (m : Mem) (fuel : Nat) : Option (Mem × Nat) :=
  if test_token61 nonce (m pw) then none
  else if ¬ test_token61 nonce (m (pw - 1)) then none
  else
    match free_scan nonce pw fuel 0 m with
    | none => none
    | some (m1, i) =>
      let size64 := i + 1
      let size64e := if size64 % 2 = 1 then size64 + 1 else size64
      some (m1, size64e / 2)

theorem free_scan_spec (nonce pw k : Nat) :
    ∀ fuel i m, i ≤ k → k < i + fuel →
    (∀ j, i ≤ j → j < k → test_token61 nonce (m (pw + j)) = false) →
    test_token61 nonce (m (pw + k)) = true →
    ∃ m1, free_scan nonce pw fuel i m = some (m1, k)
      ∧ (∀ j, i ≤ j → j < k → m1 (pw + j) = set_token61 nonce 0)
      ∧ (∀ w, (∀ j, i ≤ j → j < k → w ≠ pw + j) → m1 w = m w) := by
  intro fuel
  induction fuel with
  | zero => intro i m hik hk _ _; omega
  | succ f ih =>
    intro i m hik hk hclean hstop
    by_cases hi : i = k
    · subst hi
      refine ⟨m, ?_, ?_, ?_⟩
      · unfold free_scan
        rw [if_pos hstop]
      · intro j h1 h2; omega
      · intro w _; rfl
    · have hik2 : i < k := by omega
      have hstep : test_token61 nonce (m (pw + i)) = false := hclean i le_rfl hik2
      have hrec := ih (i + 1) (fun w => if w = pw + i then set_token61 nonce 0 else m w)
        (by omega) (by omega)
        (by
          intro j h1 h2
          beta_reduce
          rw [if_neg (by omega)]
          exact hclean j (by omega) h2)
        (by
          beta_reduce
          rw [if_neg (by omega)]
          exact hstop)
      obtain ⟨m1, hrun, hpois, hkeep⟩ := hrec
      refine ⟨m1, ?_, ?_, ?_⟩
      · unfold free_scan
        rw [if_neg (by simp [hstep]), hrun]
      · intro j h1 h2
        by_cases hj : j = i
        · subst hj
          rw [hkeep (pw + j) (by intro j2 _ _; omega)]
          beta_reduce
          rw [if_pos rfl]
        · exact hpois j (by omega) h2
      · intro w hw
        rw [hkeep w (by intro j h1 h2; exact hw j (by omega) h2)]
        beta_reduce
        rw [if_neg (by exact hw i le_rfl hik2)]

/-- C3.  Freeing an allocation of size bytes (size at least 1) poisons
every word of the region [ptr, ptr + size128 * 16), including the word
at ptr, and the size128 value recovered by the token walk and handed to
quarantine_insert equals the unit count that rezzan_malloc computed. -/
theorem c3_free_poison_recover (nonce pw size : Nat) (u : Nat → Nat) (fuel : Nat)
    (hv : validNonce nonce) (hpw : 2 ≤ pw) (hs : 1 ≤ size)
    (hu : ∀ i, i < (size + 7) / 8 → test_token61 nonce (u i) = false)
    (hfuel : (size + 7) / 8 < fuel) :
    ∃ m1, rezzan_free nonce pw (mallocMem nonce pw size u) fuel = some (m1, unitCount size)
      ∧ ∀ i, i < 2 * unitCount size → test_token61 nonce (m1 (pw + i)) = true := by
  have hu16 : unitCount size = (size + 8 + 15) / 16 := unitCount_eq_ceil size
  set k := (size + 7) / 8 with hk
  have hscan := free_scan_spec nonce pw k fuel 0 (mallocMem nonce pw size u)
    (by omega) (by omega)
    (by
      intro j _ hj
      rw [mallocMem_user nonce pw size u (pw + j) (by omega) (by omega)]
      rw [show pw + j - pw = j by omega]
      exact hu j hj)
    (by
      rw [mallocMem_red nonce pw size u (pw + k) (by omega) (by omega)]
      exact test_token61_set nonce _ hv (by omega))
  obtain ⟨m1, hrun, hpois, hkeep⟩ := hscan
  refine ⟨m1, ?_, ?_⟩
  · have h0 : test_token61 nonce (mallocMem nonce pw size u pw) = false := by
      rw [mallocMem_user nonce pw size u pw (by omega) (by omega)]
      rw [show pw - pw = 0 by omega]
      exact hu 0 (by omega)
    have h1 : test_token61 nonce (mallocMem nonce pw size u (pw - 1)) = true := by
      rw [mallocMem_sentinel nonce pw size u (pw - 1) (by omega) (by omega)]
      exact test_token61_set nonce 0 hv (by omega)
    unfold rezzan_free
    rw [if_neg (by simp [h0]), if_neg (by simp [h1]), hrun]
    have hk2 : (if (k + 1) % 2 = 1 then k + 1 + 1 else k + 1) / 2 = unitCount size := by
      split <;> omega
    simp only [hk2]
  · intro i hi
    by_cases hik : i < k
    · rw [hpois i (by omega) hik]
      exact test_token61_set nonce 0 hv (by omega)
    · rw [hkeep (pw + i) (by intro j _ hj; omega)]
      rw [mallocMem_red nonce pw size u (pw + i) (by omega) (by omega)]
      exact test_token61_set nonce _ hv (by omega)

/-- C3 witness: the theorem applied at nonce 8, pw 2, size 5, fuel 10. -/
theorem c3_witness :
    ∃ m1, rezzan_free 8 2 (mallocMem 8 2 5 (fun _ => 0)) 10 = some (m1, unitCount 5)
      ∧ ∀ i, i < 2 * unitCount 5 → test_token61 8 (m1 (2 + i)) = true :=
  c3_free_poison_recover 8 2 5 (fun _ => 0) 10
    (by simp only [validNonce]; decide) (by decide) (by decide) (by decide) (by decide)

/-- Byte-indexed memory, for the byte-copy loops of memcpy and memmove. -/
def BMem : Type := Nat → Nat

/-- The 64-bit word at word index wi, assembled from eight little-endian
bytes, as read by the token test instructions. -/
def wordAt (m : BMem) (wi : Nat) : Nat :=
  m (8 * wi) + 256 * (m (8 * wi + 1) + 256 * (m (8 * wi + 2) + 256 * (m (8 * wi + 3) +
    256 * (m (8 * wi + 4) + 256 * (m (8 * wi + 5) + 256 * (m (8 * wi + 6) +
    256 * m (8 * wi + 7)))))))

/-- View of a byte memory as the word memory that the token reads see. -/
def toMem (m : BMem) : Mem := wordAt m

/-- The forward byte-copy loop of memcpy: bytes are written in order of
increasing index, each read going to the current memory. -/
def copyFwd (dst src : Nat) : Nat → BMem → BMem
  | 0, m => m
  | k + 1, m =>
    let m1 := copyFwd dst src k m
    fun a => if a = dst + k then m1 (src + k) else m1 a

/-- The backward byte-copy loop of memmove: bytes are written in order of
decreasing index. -/
def copyBwd (dst src : Nat) : Nat → BMem → BMem
  | 0, m => m
  | k + 1, m =>
    copyBwd dst src k (fun a => if a = dst + k then m (src + k) else m a)

/-- memcpy from the source: poison-window check on the destination range,
then on the source range, then the forward byte copy.  A none result
models the ud2 abort raised inside check_poisoned, which happens before
any byte is written. -/
def rezzan_memcpy (nonce : Nat) (m : BMem) (dst src n : Nat) : Option BMem :=
  if check_poisoned nonce (toMem m) dst n then none
  else if check_poisoned nonce (toMem m) src n then none
  else some (copyFwd dst src n m)

/-- memmove from the source: the same two checks, then a forward copy
when dst is below src and a backward copy otherwise. -/
def rezzan_memmove (nonce : Nat) (m : BMem) (dst src n : Nat) : Option BMem :=
  if check_poisoned nonce (toMem m) dst n then none
  else if check_poisoned nonce (toMem m) src n then none
  else if dst < src then some (copyFwd dst src n m)
  else some (copyBwd dst src n m)

/-- The word loop of check_poisoned aborts as soon as one word of the
cover of [p, p + n) is poisoned. -/
theorem check_poisoned_of_cover (nonce : Nat) (m : Mem) (p n wi : Nat)
    (hn : 1 ≤ n) (h1 : p / 8 ≤ wi) (h2 : wi ≤ (p + n - 1) / 8)
    (hp : test_token61 nonce (m wi) = true) :
    check_poisoned nonce m p n = true := by
  rw [check_poisoned_char]
  have hA : ((List.range ((p % 8 + n + 7) / 8)).any fun i =>
      test_token61 nonce (m (p / 8 + i))) = true := by
    rw [List.any_eq_true]
    refine ⟨wi - p / 8, ?_, ?_⟩
    · rw [List.mem_range]
      omega
    · rw [show p / 8 + (wi - p / 8) = wi by omega]
      exact hp
  rw [hA, Bool.true_or]

/-- C4.  If some word of the word cover of the destination range or of
the source range is poisoned, memcpy and memmove abort inside the
poison-window checks, before any byte is copied: no memory state is
produced. -/
theorem c4_memcpy_memmove_abort (nonce : Nat) (m : BMem) (dst src n wi : Nat)
    (hn : 1 ≤ n)
    (hcover : (dst / 8 ≤ wi ∧ wi ≤ (dst + n - 1) / 8)
            ∨ (src / 8 ≤ wi ∧ wi ≤ (src + n - 1) / 8))
    (hp : test_token61 nonce (wordAt m wi) = true) :
    rezzan_memcpy nonce m dst src n = none
    ∧ rezzan_memmove nonce m dst src n = none := by
  rcases hcover with ⟨h1, h2⟩ | ⟨h1, h2⟩
  · have hc : check_poisoned nonce (toMem m) dst n = true :=
      check_poisoned_of_cover nonce (toMem m) dst n wi hn h1 h2 hp
    constructor
    · unfold rezzan_memcpy
      rw [if_pos hc]
    · unfold rezzan_memmove
      rw [if_pos hc]
  · have hc : check_poisoned nonce (toMem m) src n = true :=
      check_poisoned_of_cover nonce (toMem m) src n wi hn h1 h2 hp
    constructor
    · unfold rezzan_memcpy
      cases hd : check_poisoned nonce (toMem m) dst n
      · rw [if_neg (by simp [hd]), if_pos hc]
      · simp
    · unfold rezzan_memmove
      cases hd : check_poisoned nonce (toMem m) dst n
      · rw [if_neg (by simp [hd]), if_pos hc]
      · simp

/-- A concrete byte memory whose word 0 holds the 61-bit token of the
nonce 8 with boundary 0, and which is zero elsewhere. -/
def bmemPoisoned0 : BMem := fun a =>
  if a = 0 then 0xF8 else if a < 8 then 0xFF else 0

/-- C4 witness: the theorem applied to a copy of 4 bytes from byte 16 to
byte 0 of a memory whose word 0 is poisoned. -/
theorem c4_witness :
    rezzan_memcpy 8 bmemPoisoned0 0 16 4 = none
    ∧ rezzan_memmove 8 bmemPoisoned0 0 16 4 = none :=
  c4_memcpy_memmove_abort 8 bmemPoisoned0 0 16 4 0 (by decide)
    (Or.inl (by constructor <;> decide)) (by decide)

/-- A quarantine free-list cell: pool-relative unit offset, unit count,
and the next link, given as the index of the next node in the node pool
(pointers are modelled as indices into the node pool). -/
structure FreeNode where
  ptr128 : Nat
  size128 : Nat
  next : Option Nat
deriving DecidableEq

instance : Inhabited FreeNode := ⟨⟨0, 0, none⟩⟩

/-- The quarantine state: the node pool (quarantine_pool, with
quarantine_ptr equal to the list length), the 20 front and back fields,
the node freelist head (quarantine_free), the usage counter and the
capacity quarantine_pool_size fixed at init. -/
structure QState where
  nodes : List FreeNode
  front : List (Option Nat)
  back : List (Option Nat)
  freelist : Option Nat
  usage : Nat
  cap : Nat
deriving DecidableEq

/-- The empty quarantine, with a capacity large enough for the traces
considered here. -/
def emptyQ : QState :=
  ⟨[], List.replicate 20 none, List.replicate 20 none, none, 0, 1000⟩

/-- The number of significant bits of x, which is floor(log2 x) + 1 for
positive x, computed by a bounded scan over the 64 bit positions of a
64-bit value.  Unlike Nat.log2, which is defined by well-founded
recursion, this reduces under kernel evaluation. -/
def bits64 (x : Nat) : Nat :=
  (List.range 64).foldl (fun acc j => if 2 ^ j ≤ x then j + 1 else acc) 0

/-- The count of leading zeros of a nonzero 64-bit value, as computed by
the clzll builtin: 64 minus the bit width. -/
def clzll (x : Nat) : Nat := 64 - bits64 x

theorem bits_range_eq (x : Nat) (hx : 1 ≤ x) :
    ∀ N, (List.range N).foldl (fun acc j => if 2 ^ j ≤ x then j + 1 else acc) 0
      = min (Nat.log2 x + 1) N := by
  intro N
  induction N with
  | zero => simp
  | succ n ih =>
    rw [List.range_succ, List.foldl_append]
    simp only [List.foldl_cons, List.foldl_nil]
    by_cases h2 : 2 ^ n ≤ x
    · rw [if_pos h2]
      have hn : n ≤ Nat.log2 x := (Nat.le_log2 (by omega)).mpr h2
      omega
    · rw [if_neg h2, ih]
      have hn : Nat.log2 x < n := by
        rw [Nat.log2_lt (by omega)]
        omega
      omega

theorem bits64_eq (x : Nat) (hx : 1 ≤ x) : bits64 x = min (Nat.log2 x + 1) 64 :=
  bits_range_eq x hx 64

/-- quarantine_index from the source: 0 for size 0, otherwise
64 - clzll(size128), clamped to the last of the 20 classes. -/
def quarantine_index (size128 : Nat) : Nat :=
  if size128 = 0 then 0
  else
    let i := 64 - clzll size128
    if i ≥ 20 then 19 else i

/-- quarantine_node_alloc: pop the node freelist if possible, otherwise
bump-allocate from the node pool.  The lazily committed mmap growth
cannot fail in the model; when the pool capacity is exhausted the C code
calls error() and traps, which a none result models.  The function never
returns a null node. -/
def quarantine_node_alloc (st : QState) : Option (Nat × QState) :=
  match st.freelist with
  | some k => some (k, { st with freelist := (st.nodes.getD k default).next })
  | none =>
    if st.nodes.length ≥ st.cap then none
    else some (st.nodes.length, { st with nodes := st.nodes ++ [default] })

/-- quarantine_insert: allocate a node, fill it, append it at the tail of
the class list of size128 and add size128 to the usage counter.  A none
result models the trap inside quarantine_node_alloc; the null-node check
of the C code is unreachable because quarantine_node_alloc either
returns a node or traps. -/
def quarantine_insert (ptr128 size128 : Nat) (st : QState) : Option QState :=
  match quarantine_node_alloc st with
  | none => none
  | some (k, st1) =>
    let st2 := { st1 with nodes := st1.nodes.set k ⟨ptr128, size128, none⟩ }
    let i := quarantine_index size128
    let st3 :=
      match st2.back.getD i none with
      | none =>
        { st2 with front := st2.front.set i (some k), back := st2.back.set i (some k) }
      | some b =>
        let nb := st2.nodes.getD b default
        let st2a := { st2 with nodes := st2.nodes.set b { nb with next := some k } }
        { st2a with back := st2a.back.set i (some k) }
    some { st3 with usage := st3.usage + size128 }

/-- The first-phase scan of quarantine_malloc: walk the class list while
the node is non-null and the loop counter is below the limit 8, stopping
early at the first node whose size is at least the request.  The fuel
argument counts the remaining iterations; the result is the pair of the
node variable and the prev variable at loop exit. -/
def phase1 (nodes : List FreeNode) (req : Nat) :
    Nat → Option Nat → Option Nat → Option Nat × Option Nat
  | _, none, prev => (none, prev)
  | 0, some k, prev => (some k, prev)
  | fuel + 1, some k, prev =>
    if (nodes.getD k default).size128 ≥ req then (some k, prev)
    else phase1 nodes req fuel (nodes.getD k default).next (some k)

/-- The second-phase scan of quarantine_malloc over the higher classes:
for each index from i upwards the node variable is overwritten with the
front of the class, and the loop breaks when that node satisfies the
request.  The result is the node variable and the index at loop exit;
when no class qualifies the index is 20 and the node variable holds the
front of the last class inspected. -/
def phase2 (front : List (Option Nat)) (nodes : List FreeNode) (req : Nat) :
    Nat → Nat → Option Nat → Option Nat × Nat
  | 0, i, node => (node, i)
  | fuel + 1, i, node =>
    if i < 20 then
      match front.getD i none with
      | some k =>
        if (nodes.getD k default).size128 ≥ req then (some k, i)
        else phase2 front nodes req fuel (i + 1) (some k)
      | none => phase2 front nodes req fuel (i + 1) none
    else (node, i)

/-- quarantine_malloc from the source.  The first component is the unit
offset of the returned region (none models returning NULL), the second
the updated state.  The accesses to quarantine[20] that the C code can
make when the second phase falls through with a non-null unsatisfying
node are modelled by the out-of-range defaults of getD and the
out-of-range no-ops of set; no theorem below exercises that path. -/
def quarantine_malloc (req : Nat) (st : QState) : Option Nat × QState :=
  let i0 := quarantine_index req
  let p1 := phase1 st.nodes req 8 (st.front.getD i0 none) none
  let n2 :=
    match p1.1 with
    | some k => if (st.nodes.getD k default).size128 < req then none else some k
    | none => none
  let sel :=
    match n2 with
    | some k => (some k, p1.2, i0)
    | none =>
      let p2 := phase2 st.front st.nodes req 20 (i0 + 1) none
      (p2.1, (none : Option Nat), p2.2)
  match sel.1 with
  | none => (none, st)
  | some k =>
    let prev := sel.2.1
    let i := sel.2.2
    let st1 :=
      match prev with
      | some p =>
        let np := st.nodes.getD p default
        let knext := (st.nodes.getD k default).next
        { st with nodes := st.nodes.set p { np with next := knext } }
      | none =>
        if st.front.getD i none ≠ st.back.getD i none then
          { st with front := st.front.set i (st.nodes.getD k default).next }
        else
          { st with front := st.front.set i none, back := st.back.set i none }
    let st2 := { st1 with usage := st1.usage - req }
    let nd := st2.nodes.getD k default
    if nd.size128 = req then
      (some nd.ptr128,
       { st2 with nodes := st2.nodes.set k { nd with next := st2.freelist },
                  freelist := some k })
    else
      let diff := nd.size128 - req
      let j := quarantine_index diff
      let nd1 : FreeNode := { nd with size128 := diff, next := none }
      let st3 := { st2 with nodes := st2.nodes.set k nd1 }
      match st3.front.getD j none with
      | some f =>
        (some (nd.ptr128 + diff),
         { st3 with nodes := st3.nodes.set k { nd1 with next := some f },
                    front := st3.front.set j (some k) })
      | none =>
        (some (nd.ptr128 + diff),
         { st3 with front := st3.front.set j (some k),
                    back := st3.back.set j (some k) })

/-- A driver for sequences of quarantine operations. -/
inductive QOp where
  | ins (ptr128 size128 : Nat)
  | mal (req : Nat)

/-- Apply one operation; a trapped insert keeps the state (no trace used
below ever traps). -/
def applyOp (st : QState) : QOp → QState
  | .ins p s => (quarantine_insert p s st).getD st
  | .mal r => (quarantine_malloc r st).2

def runOps (st : QState) (ops : List QOp) : QState := ops.foldl applyOp st

/-- The list of node indices reachable from a head pointer by following
next links, with fuel; none signals a cycle or an overlong chain. -/
def chain (nodes : List FreeNode) : Nat → Option Nat → Option (List Nat)
  | _, none => some []
  | 0, some _ => none
  | fuel + 1, some k =>
    match chain nodes fuel (nodes.getD k default).next with
    | some l => some (k :: l)
    | none => none

/-- The chain of class c, with enough fuel for any acyclic list. -/
def classChain (st : QState) (c : Nat) : Option (List Nat) :=
  chain st.nodes (st.nodes.length + 1) (st.front.getD c none)

/-- The sum of the size128 fields over all nodes reachable from the 20
class fronts. -/
def reachSum (st : QState) : Nat :=
  (List.range 20).foldl (fun acc c =>
    acc + (match classChain st c with
           | some l => (l.map fun k => (st.nodes.getD k default).size128).sum
           | none => 0)) 0

/-- Well-formedness of one class list: the chain from front terminates
and the back field is its last element (none for the empty chain). -/
def listWF (st : QState) (c : Nat) : Bool :=
  match classChain st c with
  | none => false
  | some l => st.back.getD c none == l.getLast?

/-- Well-formedness of all 20 class lists. -/
def quarantineWF (st : QState) : Bool :=
  (List.range 20).all fun c => listWF st c

/-- C6, amended.  When the node freelist is empty and the node pool has
reached its capacity, quarantine_node_alloc traps the process (the error
call with ENOMEM, modelled by none), and therefore quarantine_insert
traps as well: the free is never dropped silently, because the null-node
branch of quarantine_insert is unreachable. -/
theorem c6_exhaustion_abort (p s : Nat) (st : QState)
    (hfree : st.freelist = none) (hcap : st.cap ≤ st.nodes.length) :
    quarantine_node_alloc st = none ∧ quarantine_insert p s st = none := by
  have hge : st.nodes.length ≥ st.cap := hcap
  have hna : quarantine_node_alloc st = none := by
    simp [quarantine_node_alloc, hfree, hge]
  refine ⟨hna, ?_⟩
  unfold quarantine_insert
  rw [hna]

/-- A quarantine state whose node pool is exhausted: the freelist is
empty and the pool has reached its capacity of one node. -/
def stExhausted : QState :=
  ⟨[default], List.replicate 20 none, List.replicate 20 none, none, 0, 1⟩

/-- C6, counterexample to the claim as stated: with the freelist empty
and the node pool exhausted, quarantine_insert traps (none models the
ud2 in the error call of quarantine_node_alloc) instead of returning
with the free silently dropped. -/
theorem c6_counterexample : quarantine_insert 0 1 stExhausted = none := by decide

/-- C6 witness: the amended theorem applied to the exhausted state. -/
theorem c6_witness :
    quarantine_node_alloc stExhausted = none ∧ quarantine_insert 5 3 stExhausted = none :=
  c6_exhaustion_abort 5 3 stExhausted (by decide) (by decide)

/-- C7.  The usage invariant fails on the code: after
insert(100, 2), insert(200, 3), malloc(3), insert(300, 2) the counter
quarantine_usage is 4 while the sizes of the nodes reachable from the 20
list fronts sum to 2.  The third conjunct shows the invariant still held
before the last insert: the detach of a back node behind a predecessor
leaves the back field stale, the exact-match path pushes that node onto
the freelist, the next insert reuses it and appends it behind the stale
back field, producing a self-linked node that no front reaches. -/
theorem c7_usage_divergence :
    (runOps emptyQ [.ins 100 2, .ins 200 3, .mal 3, .ins 300 2]).usage = 4
    ∧ reachSum (runOps emptyQ [.ins 100 2, .ins 200 3, .mal 3, .ins 300 2]) = 2
    ∧ (runOps emptyQ [.ins 100 2, .ins 200 3, .mal 3]).usage = 2
    ∧ reachSum (runOps emptyQ [.ins 100 2, .ins 200 3, .mal 3]) = 2 := by
  decide

/-- C8.  List well-formedness fails on the code: the two inserts leave a
well-formed state, quarantine_malloc(3) then detaches the back node of
class 2 behind a non-null predecessor (returning its offset 200), and the
resulting state is no longer well formed because the back field of class
2 still names the detached node while the chain from front ends at node
0. -/
theorem c8_stale_back :
    quarantineWF (runOps emptyQ [.ins 100 2, .ins 200 3]) = true
    ∧ (quarantine_malloc 3 (runOps emptyQ [.ins 100 2, .ins 200 3])).1 = some 200
    ∧ quarantineWF (runOps emptyQ [.ins 100 2, .ins 200 3, .mal 3]) = false := by
  decide

/-- C9, counterexample to the claim as stated: for the unit count 1 the
code computes class 1, not the clamped floor of the base-2 logarithm,
which is 0. -/
theorem c9_counterexample :
    quarantine_index 1 = 1 ∧ min (Nat.log2 1) 19 = 0 := by
  refine ⟨by decide, ?_⟩
  simp [Nat.log2]

/-- C9, amended.  For a positive unit count s the class index is
floor(log2 s) + 1 clamped to 19, and the index of 0 is 0. -/
theorem c9_index_amended (s : Nat) (hs : 1 ≤ s) :
    quarantine_index s = min (Nat.log2 s + 1) 19 ∧ quarantine_index 0 = 0 := by
  refine ⟨?_, rfl⟩
  have hb : bits64 s = min (Nat.log2 s + 1) 64 := bits64_eq s hs
  simp only [quarantine_index, clzll]
  rw [if_neg (by omega)]
  split <;> omega

/-- C9 witness: the amended theorem applied at s = 5. -/
theorem c9_witness :
    quarantine_index 5 = min (Nat.log2 5 + 1) 19 ∧ quarantine_index 0 = 0 :=
  c9_index_amended 5 (by decide)

/-- The chain predicate tying a head pointer and its next links to an
explicit list of node indices. -/
def chainMatch (nodes : List FreeNode) : Option Nat → List Nat → Bool
  | none, [] => true
  | some k, k2 :: l => k == k2 && chainMatch nodes (nodes.getD k default).next l
  | _, _ => false

theorem phase1_take_find (nodes : List FreeNode) (req : Nat) :
    ∀ l fuel head prev, chainMatch nodes head l = true →
    (match (phase1 nodes req fuel head prev).1 with
     | some k => if (nodes.getD k default).size128 < req then none else some k
     | none => none)
    = (l.take (fuel + 1)).find? fun k => req ≤ (nodes.getD k default).size128 := by
  intro l
  induction l with
  | nil =>
    intro fuel head prev hc
    cases head with
    | none => cases fuel <;> simp [phase1]
    | some k => simp [chainMatch] at hc
  | cons k tl ih =>
    intro fuel head prev hc
    cases head with
    | none => simp [chainMatch] at hc
    | some k0 =>
      simp only [chainMatch, Bool.and_eq_true, beq_iff_eq] at hc
      obtain ⟨hk, hc2⟩ := hc
      subst hk
      cases fuel with
      | zero =>
        simp only [phase1, List.take_succ_cons, List.take_zero]
        by_cases hq : req ≤ (nodes.getD k0 default).size128
        · rw [List.find?_cons_of_pos _ (by simpa using hq), if_neg (by omega)]
        · rw [List.find?_cons_of_neg _ (by simpa using hq), if_pos (by omega)]
          simp
      | succ f =>
        by_cases hq : req ≤ (nodes.getD k0 default).size128
        · simp only [phase1, if_pos (show (nodes.getD k0 default).size128 ≥ req from hq)]
          rw [List.take_succ_cons, List.find?_cons_of_pos _ (by simpa using hq),
            if_neg (by omega)]
        · simp only [phase1,
            if_neg (show ¬ (nodes.getD k0 default).size128 ≥ req from by omega)]
          rw [List.take_succ_cons, List.find?_cons_of_neg _ (by simpa using hq)]
          exact ih f (nodes.getD k0 default).next (some k0) hc2

/-- C10, amended.  The first phase of quarantine_malloc considers at most
the first nine nodes of the class list of the request: it walks eight
nodes, and the node on which the bounded walk stops, the ninth, is also
selected when it satisfies the request (line 489 of the source only
discards it when it is too small).  The selection is the first of the
first nine nodes whose size is at least the request, and none when no
such node exists. -/
theorem c10_first_nine (st : QState) (req : Nat) (l : List Nat)
    (hc : chainMatch st.nodes (st.front.getD (quarantine_index req) none) l = true) :
    (match (phase1 st.nodes req 8 (st.front.getD (quarantine_index req) none) none).1 with
     | some k => if (st.nodes.getD k default).size128 < req then none else some k
     | none => none)
    = (l.take 9).find? (fun k => req ≤ (st.nodes.getD k default).size128) :=
  phase1_take_find st.nodes req l 8 (st.front.getD (quarantine_index req) none) none hc

/-- The quarantine after nine inserts into class 3: eight nodes of size
4 followed by one node of size 7. -/
def c10state : QState :=
  runOps emptyQ [.ins 10 4, .ins 20 4, .ins 30 4, .ins 40 4, .ins 50 4, .ins 60 4,
    .ins 70 4, .ins 80 4, .ins 90 7]

/-- C10, counterexample to the claim as stated: none of the first eight
nodes of class 3 satisfies the request 7, so by the claim the first
phase should select no node, and since the higher classes are all empty
quarantine_malloc should return NULL; the code instead selects the ninth
node and returns its offset 90. -/
theorem c10_counterexample :
    (quarantine_malloc 7 c10state).1 = some 90
    ∧ ((List.range 8).all fun k =>
        (c10state.nodes.getD k default).size128 < 7) = true := by decide

/-- C10 witness: the amended theorem applied to the nine-node class. -/
theorem c10_witness :
    (match (phase1 c10state.nodes 7 8 (c10state.front.getD (quarantine_index 7) none)
        none).1 with
     | some k => if (c10state.nodes.getD k default).size128 < 7 then none else some k
     | none => none)
    = ([0, 1, 2, 3, 4, 5, 6, 7, 8].take 9).find?
        (fun k => 7 ≤ (c10state.nodes.getD k default).size128) :=
  c10_first_nine c10state 7 [0, 1, 2, 3, 4, 5, 6, 7, 8] (by decide)

/-- The fixed base address of the malloc pool, 16-byte aligned. -/
def POOL_BASE : Nat := 0xaaa00000000

/-- The allocator state seen by rezzan_malloc: the quarantine, the pool
bump pointer and pool size in units, and the quarantine threshold
(quarantine_size).  The lazily committed pool_mmap bookkeeping cannot
fail in the model and is omitted; token writes are modelled separately
on the word memory. -/
structure HState where
  q : QState
  pool_ptr : Nat
  pool_size : Nat
  quarantine_size : Nat
deriving DecidableEq

/-- pool_malloc: out of space when the advanced bump pointer would pass
the pool size, in which case the C code returns NULL with errno ENOMEM,
modelled by none.  On success the result is the unit offset of the
allocation and the new bump pointer. -/
def pool_malloc (size128 pool_ptr pool_size : Nat) : Option (Nat × Nat) :=
  if pool_ptr + size128 > pool_size then none
  else some (pool_ptr, pool_ptr + size128)

/-- rezzan_malloc: compute the unit count, try the quarantine when usage
exceeds the threshold, otherwise and on failure bump the pool, and trap
on failure.  The returned pointer is the byte address
POOL_BASE + 16 * units; none models the error call (ud2) on allocation
failure, so ENOMEM is never surfaced to the caller. -/
def rezzan_malloc (size : Nat) (st : HState) : Option (Nat × HState) :=
  let size1 := if size = 0 then 1 else size
  let size128 := unitCount size1
  let qr := if st.q.usage > st.quarantine_size
            then quarantine_malloc size128 st.q
            else (none, st.q)
  match qr.1 with
  | some off => some (POOL_BASE + 16 * off, { st with q := qr.2 })
  | none =>
    match pool_malloc size128 st.pool_ptr st.pool_size with
    | some po => some (POOL_BASE + 16 * po.1, { st with q := qr.2, pool_ptr := po.2 })
    | none => none

/-- C2.  Every successful malloc returns a 16-byte aligned pointer, the
effective size (a zero request counts as one byte) is strictly below
size128 * 16, and the unit count that the rounding code computes is the
ceiling of (size + 8) / 16. -/
theorem c2_malloc_alignment (size : Nat) (st : HState) (ptr : Nat) (st1 : HState)
    (h : rezzan_malloc size st = some (ptr, st1)) :
    ptr % 16 = 0
    ∧ (if size = 0 then 1 else size) < unitCount (if size = 0 then 1 else size) * 16
    ∧ unitCount (if size = 0 then 1 else size)
        = ((if size = 0 then 1 else size) + 8 + 15) / 16 := by
  refine ⟨?_, ?_, unitCount_eq_ceil _⟩
  · simp only [rezzan_malloc] at h
    rcases hq : (if st.q.usage > st.quarantine_size
        then quarantine_malloc (unitCount (if size = 0 then 1 else size)) st.q
        else (none, st.q)).1 with _ | off
    · rw [hq] at h
      rcases hp : pool_malloc (unitCount (if size = 0 then 1 else size))
          st.pool_ptr st.pool_size with _ | po
      · rw [hp] at h
        simp at h
      · rw [hp] at h
        simp only [Option.some.injEq, Prod.mk.injEq] at h
        obtain ⟨hp1, -⟩ := h
        subst hp1
        simp only [POOL_BASE]
        omega
    · rw [hq] at h
      simp only [Option.some.injEq, Prod.mk.injEq] at h
      obtain ⟨hp1, -⟩ := h
      subst hp1
      simp only [POOL_BASE]
      omega
  · rw [unitCount_eq_ceil]
    split <;> omega

/-- C2 witness: the theorem applied to a malloc(5) from a fresh state. -/
theorem c2_witness :
    (POOL_BASE + 16 * 1) % 16 = 0
    ∧ (if 5 = 0 then 1 else 5) < unitCount (if 5 = 0 then 1 else 5) * 16
    ∧ unitCount (if 5 = 0 then 1 else 5) = ((if 5 = 0 then 1 else 5) + 8 + 15) / 16 :=
  c2_malloc_alignment 5 ⟨emptyQ, 1, 1000, 1000000⟩ (POOL_BASE + 16 * 1)
    ⟨emptyQ, 2, 1000, 1000000⟩ (by decide)

/-- C5, amended.  When the quarantine yields nothing and the advanced
bump pointer would pass the pool size, pool_malloc fails with NULL and
errno ENOMEM, but rezzan_malloc does not surface that failure to the
caller: it traps the process with SIGILL through the error call
(modelled by none). -/
theorem c5_oom_abort (size : Nat) (st : HState)
    (hq : (if st.q.usage > st.quarantine_size
           then quarantine_malloc (unitCount (if size = 0 then 1 else size)) st.q
           else (none, st.q)).1 = none)
    (hfull : st.pool_ptr + unitCount (if size = 0 then 1 else size) > st.pool_size) :
    pool_malloc (unitCount (if size = 0 then 1 else size)) st.pool_ptr st.pool_size = none
    ∧ rezzan_malloc size st = none := by
  have hp : pool_malloc (unitCount (if size = 0 then 1 else size))
      st.pool_ptr st.pool_size = none := by
    unfold pool_malloc
    rw [if_pos hfull]
  refine ⟨hp, ?_⟩
  simp only [rezzan_malloc]
  rw [hq, hp]

/-- A state with an empty quarantine and a full pool. -/
def stFull : HState := ⟨emptyQ, 10, 10, 1000000⟩

/-- C5, counterexample to the claim as stated: with the quarantine empty
and the pool full, rezzan_malloc ends in the error call (none models its
ud2 trap); no ENOMEM return value reaches the caller, the process
terminates. -/
theorem c5_counterexample : rezzan_malloc 100 stFull = none := by decide

/-- C5 witness: the amended theorem applied to the full state. -/
theorem c5_witness :
    pool_malloc (unitCount (if 100 = 0 then 1 else 100)) stFull.pool_ptr
      stFull.pool_size = none
    ∧ rezzan_malloc 100 stFull = none :=
  c5_oom_abort 100 stFull (by decide) (by decide)

end Rezzan
